import Mathlib

/-!
Shallow embedding of the crabtrics access-log parsing core
(`src/access_logs.rs`): the byte scanner, the log record reader
(`read_one`) and the timestamp parser (`parse_log_date`).

Bytes are modelled as `Nat` (values 0..255), the byte source as a
`List Nat` consumed from the front, and the reader's scratch buffer as a
`List Nat` that grows by appending.  Fallible operations return
`Option`; a read past the end of the source is modelled by `none`.
Outcomes of `read_one` distinguish a successful record, clean
end-of-stream, truncation (end-of-stream mid-scan), a parse failure
returned to the caller, and a Rust panic.
-/

/-- Bytes of an ASCII string literal, used to write concrete inputs. -/
def strBytes (s : String) : List Nat := s.data.map Char.toNat

/-- ASCII decimal digit test. -/
def isDigit (b : Nat) : Bool := 48 ≤ b && b ≤ 57

/-- Numeric value of a list of ASCII digits, most significant first. -/
def digitsToNat (ds : List Nat) : Nat := ds.foldl (fun acc d => acc * 10 + (d - 48)) 0

/-- Model of `std::net::IpAddr`.  Only the V4 form is modelled: the log
reader parses the requestor with the standard library's address parser,
and no input considered here contains an IPv6 literal. -/
inductive IpAddr
  | v4 (a b c d : Nat)
deriving DecidableEq, Repr

/-- Model of `time::OffsetDateTime` as resolved calendar components plus
a UTC offset (hours signed, minutes unsigned). -/
structure OffsetDateTime where
  year : Nat
  month : Nat
  day : Nat
  hour : Nat
  minute : Nat
  second : Nat
  offHour : Int
  offMinute : Nat
deriving DecidableEq, Repr

/-- Continuation byte test for UTF-8 (0x80..0xBF). -/
def isCont (b : Nat) : Bool := 128 ≤ b && b ≤ 191

/-- Model of `str::from_utf8` validity: the standard UTF-8 well-formedness
check (shortest forms only, no surrogates, max U+10FFFF). -/
def validUtf8 : List Nat → Bool
  | [] => true
  | b :: rest =>
    if b ≤ 127 then validUtf8 rest
    else if 194 ≤ b && b ≤ 223 then
      match rest with
      | c1 :: r => isCont c1 && validUtf8 r
      | [] => false
    else if b = 224 then
      match rest with
      | c1 :: c2 :: r => (160 ≤ c1 && c1 ≤ 191) && isCont c2 && validUtf8 r
      | _ => false
    else if (225 ≤ b && b ≤ 236) || b = 238 || b = 239 then
      match rest with
      | c1 :: c2 :: r => isCont c1 && isCont c2 && validUtf8 r
      | _ => false
    else if b = 237 then
      match rest with
      | c1 :: c2 :: r => (128 ≤ c1 && c1 ≤ 159) && isCont c2 && validUtf8 r
      | _ => false
    else if b = 240 then
      match rest with
      | c1 :: c2 :: c3 :: r => (144 ≤ c1 && c1 ≤ 191) && isCont c2 && isCont c3 && validUtf8 r
      | _ => false
    else if 241 ≤ b && b ≤ 243 then
      match rest with
      | c1 :: c2 :: c3 :: r => isCont c1 && isCont c2 && isCont c3 && validUtf8 r
      | _ => false
    else if b = 244 then
      match rest with
      | c1 :: c2 :: c3 :: r => (128 ≤ c1 && c1 ≤ 143) && isCont c2 && isCont c3 && validUtf8 r
      | _ => false
    else false

/-- Longest prefix of ASCII digits, with the remainder. -/
def takeDigits : List Nat → List Nat × List Nat
  | [] => ([], [])
  | c :: rest =>
    if isDigit c then
      let (ds, r) := takeDigits rest
      (c :: ds, r)
    else ([], c :: rest)

/-- One dotted-decimal IPv4 octet, per the Rust standard library parser:
one to three digits, no leading zero (except the single digit 0), value
at most 255. -/
def parseOctet (bs : List Nat) : Option (Nat × List Nat) :=
  let (ds, rest) := takeDigits bs
  if ds = [] then none
  else if 3 < ds.length then none
  else if ds.head? = some 48 && ds.length != 1 then none
  else if digitsToNat ds ≤ 255 then some (digitsToNat ds, rest)
  else none

/-- Expect one literal byte at the head of the input. -/
def expectByte (b : Nat) : List Nat → Option (List Nat)
  | c :: rest => if c = b then some rest else none
  | [] => none

/-- Model of `str::parse::<IpAddr>()` on the requestor field: a full
dotted-decimal IPv4 literal.  (IPv6 literals, accepted by the standard
library, are not modelled; no claim exercises them.) -/
def parseIpAddr (bs : List Nat) : Option IpAddr :=
  match parseOctet bs with
  | none => none
  | some (a, r1) =>
    match expectByte 46 r1 with
    | none => none
    | some r2 =>
      match parseOctet r2 with
      | none => none
      | some (b, r3) =>
        match expectByte 46 r3 with
        | none => none
        | some r4 =>
          match parseOctet r4 with
          | none => none
          | some (c, r5) =>
            match expectByte 46 r5 with
            | none => none
            | some r6 =>
              match parseOctet r6 with
              | none => none
              | some (d, r7) => if r7 = [] then some (.v4 a b c d) else none

/-- Model of `str::parse` for unsigned integers (`u16`/`u32` by the
bound `maxVal`): an optional leading plus sign, one or more ASCII
digits, value within range. -/
def parseUNat (maxVal : Nat) (bs : List Nat) : Option Nat :=
  let ds := match bs with
    | 43 :: rest => rest
    | _ => bs
  if ds = [] then none
  else if ds.all (fun b => isDigit b) then
    if digitsToNat ds ≤ maxVal then some (digitsToNat ds) else none
  else none

/-- Short month-name table of the `time` crate (`MonthRepr::Short`):
three bytes, capitalised, mapping to the month number. -/
def monthFromName (l : List Nat) : Option Nat :=
  if l = strBytes "Jan" then some 1
  else if l = strBytes "Feb" then some 2
  else if l = strBytes "Mar" then some 3
  else if l = strBytes "Apr" then some 4
  else if l = strBytes "May" then some 5
  else if l = strBytes "Jun" then some 6
  else if l = strBytes "Jul" then some 7
  else if l = strBytes "Aug" then some 8
  else if l = strBytes "Sep" then some 9
  else if l = strBytes "Oct" then some 10
  else if l = strBytes "Nov" then some 11
  else if l = strBytes "Dec" then some 12
  else none

/-- Exactly two ASCII digits (zero padded), as parsed by the `time`
crate's two-digit components with the default `Padding::Zero`. -/
def digits2 : List Nat → Option (Nat × List Nat)
  | a :: b :: rest =>
    if isDigit a && isDigit b then some ((a - 48) * 10 + (b - 48), rest) else none
  | _ => none

/-- Exactly four ASCII digits, as parsed for a full-representation year
with the default `Padding::Zero`. -/
def digits4 : List Nat → Option (Nat × List Nat)
  | a :: b :: c :: d :: rest =>
    if isDigit a && isDigit b && isDigit c && isDigit d then
      some ((a - 48) * 1000 + (b - 48) * 100 + (c - 48) * 10 + (d - 48), rest)
    else none
  | _ => none

/-- Model of `Parsed::parse_component` for `Component::Day` with the
default modifier: two digits, value 1..=31. -/
def parseDayC (bs : List Nat) : Option (Nat × List Nat) :=
  match digits2 bs with
  | some (d, r) => if 1 ≤ d && d ≤ 31 then some (d, r) else none
  | none => none

/-- Model of `parse_component` for `Component::Month` with
`MonthRepr::Short`: a three-letter month name. -/
def parseMonthC (bs : List Nat) : Option (Nat × List Nat) :=
  match bs with
  | a :: b :: c :: rest =>
    match monthFromName [a, b, c] with
    | some m => some (m, rest)
    | none => none
  | _ => none

/-- Model of `parse_component` for `Component::Year` with the default
modifier: four digits. -/
def parseYearC (bs : List Nat) : Option (Nat × List Nat) := digits4 bs

/-- Model of `parse_component` for `Component::Hour`: two digits 00..23. -/
def parseHourC (bs : List Nat) : Option (Nat × List Nat) :=
  match digits2 bs with
  | some (h, r) => if h ≤ 23 then some (h, r) else none
  | none => none

/-- Model of `parse_component` for `Component::Minute`: two digits 00..59. -/
def parseMinuteC (bs : List Nat) : Option (Nat × List Nat) :=
  match digits2 bs with
  | some (m, r) => if m ≤ 59 then some (m, r) else none
  | none => none

/-- Model of `parse_component` for `Component::Second`: two digits 00..59. -/
def parseSecondC (bs : List Nat) : Option (Nat × List Nat) :=
  match digits2 bs with
  | some (s, r) => if s ≤ 59 then some (s, r) else none
  | none => none

/-- Model of `parse_component` for `Component::OffsetHour` with the
default modifier: an optional sign and two digits. -/
def parseOffsetHourC (bs : List Nat) : Option (Int × List Nat) :=
  match bs with
  | 43 :: rest =>
    match digits2 rest with
    | some (h, r) => if h ≤ 23 then some ((h : Int), r) else none
    | none => none
  | 45 :: rest =>
    match digits2 rest with
    | some (h, r) => if h ≤ 23 then some (-(h : Int), r) else none
    | none => none
  | _ =>
    match digits2 bs with
    | some (h, r) => if h ≤ 23 then some ((h : Int), r) else none
    | none => none

/-- Model of `parse_component` for `Component::OffsetMinute`: two digits
00..59. -/
def parseOffsetMinuteC (bs : List Nat) : Option (Nat × List Nat) :=
  match digits2 bs with
  | some (m, r) => if m ≤ 59 then some (m, r) else none
  | none => none

/-- Gregorian leap-year test, for validating the parsed calendar date. -/
def isLeap (y : Nat) : Bool := (y % 4 = 0 && y % 100 != 0) || y % 400 = 0

/-- Days in a month, for validating the parsed calendar date. -/
def daysInMonth (y m : Nat) : Nat :=
  if m = 2 then (if isLeap y then 29 else 28)
  else if m = 4 || m = 6 || m = 9 || m = 11 then 30
  else 31

/-- Result of `parse_log_date`: a timestamp, an error returned to the
caller (`anyhow::bail!` or a `?`-propagated component error, carrying
which component or separator failed), or a Rust panic.  The panic arises
from `time_bytes[0]` when a separator check runs on an empty remainder. -/
inductive DateResult
  | ok (t : OffsetDateTime)
  | err (msg : String)
  | panicked
deriving DecidableEq, Repr

/-- Embedding of `parse_log_date` (src/access_logs.rs lines 131-171):
component-by-component parsing against literal separators.  Each
`if time_bytes[0] != SEP` in the source indexes the remainder, which
panics when the remainder is empty; that case is `.panicked` here. -/
def parse_log_date (bytes : List Nat) : DateResult :=
  match parseDayC bytes with
  | none => .err "day"
  | some (day, tb1) =>
    match tb1 with
    | [] => .panicked
    | c1 :: tr1 =>
      if c1 ≠ 47 then .err "missing / after day" else
      match parseMonthC tr1 with
      | none => .err "month"
      | some (month, tb2) =>
        match tb2 with
        | [] => .panicked
        | c2 :: tr2 =>
          if c2 ≠ 47 then .err "missing / after month" else
          match parseYearC tr2 with
          | none => .err "year"
          | some (year, tb3) =>
            match tb3 with
            | [] => .panicked
            | c3 :: tr3 =>
              if c3 ≠ 58 then .err "missing : after year" else
              match parseHourC tr3 with
              | none => .err "hour"
              | some (hour, tb4) =>
                match tb4 with
                | [] => .panicked
                | c4 :: tr4 =>
                  if c4 ≠ 58 then .err "missing : after hour" else
                  match parseMinuteC tr4 with
                  | none => .err "minute"
                  | some (minute, tb5) =>
                    match tb5 with
                    | [] => .panicked
                    | c5 :: tr5 =>
                      if c5 ≠ 58 then .err "missing : after minute" else
                      match parseSecondC tr5 with
                      | none => .err "second"
                      | some (second, tb6) =>
                        match tb6 with
                        | [] => .panicked
                        | c6 :: tr6 =>
                          if c6 ≠ 32 then .err "missing space after second" else
                          match parseOffsetHourC tr6 with
                          | none => .err "offset hour"
                          | some (offHour, tb7) =>
                            match parseOffsetMinuteC tb7 with
                            | none => .err "offset minute"
                            | some (offMinute, tb8) =>
                              if tb8 ≠ [] then .err "invalid time format: extra trailing data"
                              else if 1 ≤ month && month ≤ 12 && day ≤ daysInMonth year month then
                                .ok ⟨year, month, day, hour, minute, second, offHour, offMinute⟩
                              else .err "invalid date"

/-- Embedding of `LogReader::scan_until` (lines 105-112): pull bytes
from `input`, appending each to the scratch buffer `sc`, until one
equals `b`; return the new scratch, the offset of the matched byte
(`scratch.len() - 1`), and the remaining input.  `none` models
`read_exact` failing with `UnexpectedEof`. -/
def scanUntil (b : Nat) (sc input : List Nat) : Option (List Nat × Nat × List Nat) :=
  match input with
  | [] => none
  | c :: rest =>
    if c = b then some (sc ++ [c], sc.length, rest)
    else scanUntil b (sc ++ [c]) rest

/-- Outcome of matching the tail `s[1..]` of a delimiter byte-by-byte
(the `for` loop of `scan_until_slice`): full match, a mismatch (the
mismatched byte has been consumed into scratch), or end of stream. -/
inductive MatchOutcome
  | matched (sc input : List Nat)
  | mismatched (sc input : List Nat)
  | ended
deriving DecidableEq, Repr

/-- The inner `for byte in &s[1..]` loop of `scan_until_slice`
(lines 119-124): read one byte per pattern byte, appending to scratch;
stop at the first mismatch. -/
def matchRest (pat sc input : List Nat) : MatchOutcome :=
  match pat, input with
  | [], _ => .matched sc input
  | _ :: _, [] => .ended
  | p :: ps, c :: rest =>
    if p = c then matchRest ps (sc ++ [c]) rest else .mismatched (sc ++ [c]) rest

/-- Fuelled embedding of `LogReader::scan_until_slice` (lines 114-128)
for a delimiter `s0 :: stail` (the source asserts the delimiter is
non-empty): repeatedly scan until the first delimiter byte, then match
the rest one byte at a time; on a mismatch restart the search from the
current position.  On success returns `scratch.len() - s.len()`.  Each
iteration consumes at least one input byte, so any fuel exceeding the
input length makes the fuel case unreachable. -/
def scanUntilSliceF (fuel : Nat) (s0 : Nat) (stail sc input : List Nat) :
    Option (List Nat × Nat × List Nat) :=
  match fuel with
  | 0 => none
  | fuel' + 1 =>
    match scanUntil s0 sc input with
    | none => none
    | some (sc1, _, in1) =>
      match matchRest stail sc1 in1 with
      | .matched sc2 in2 => some (sc2, sc2.length - (stail.length + 1), in2)
      | .ended => none
      | .mismatched sc2 in2 => scanUntilSliceF fuel' s0 stail sc2 in2

/-- `scan_until_slice` with sufficient fuel. -/
def scanUntilSlice (s0 : Nat) (stail sc input : List Nat) :
    Option (List Nat × Nat × List Nat) :=
  scanUntilSliceF (input.length + 1) s0 stail sc input

/-- Embedding of `str::split_once(' ')` seen on bytes: split at the
first occurrence of `c`; `none` when `c` does not occur. -/
def splitOnce (xs : List Nat) (c : Nat) : Option (List Nat × List Nat) :=
  match xs with
  | [] => none
  | x :: rest =>
    if x = c then some ([], rest)
    else
      match splitOnce rest c with
      | none => none
      | some (a, b) => some (x :: a, b)

/-- Embedding of the method/path derivation of `read_one`
(lines 77-83): the empty-request / status-400 sentinel, otherwise two
successive `split_once(' ')` calls; `none` models
`anyhow::bail!("invalid http request")`. -/
def splitRequest (request : List Nat) (code : Nat) : Option (List Nat × List Nat) :=
  if request = [] || code = 400 then some ([], [])
  else
    match splitOnce request 32 with
    | none => none
    | some (method, remaining) =>
      match splitOnce remaining 32 with
      | none => none
      | some (path, _) => some (method, path)

/-- The sub-range `scratch[a..b]` of a buffer, as sliced by the source. -/
def sliceRange (l : List Nat) (a b : Nat) : List Nat := (l.drop a).take (b - a)

/-- One record as assembled by `read_one`, keeping the final scratch
buffer and the offsets at which each textual field was sliced from it. -/
structure RawRecord where
  scratch : List Nat
  requestor : IpAddr
  time : OffsetDateTime
  requestEnd : Nat
  request : List Nat
  method : List Nat
  path : List Nat
  responseCode : Nat
  bytesSent : Nat
  referrerStart : Nat
  referrerEnd : Nat
  uaStart : Nat
  uaEnd : Nat
deriving DecidableEq, Repr

/-- Outcome of one `read_one` call at the raw level:
`ok` (a record plus the unconsumed input), `eof` (`Ok(None)`),
`truncated` (`UnexpectedEof` propagated from a scan mid-record),
`failed` (any other error returned to the caller), `panicked`. -/
inductive ROutcome
  | ok (raw : RawRecord) (rest : List Nat)
  | eof
  | truncated
  | failed (msg : String)
  | panicked
deriving DecidableEq, Repr

/-- Propagate a scan's end-of-stream as a truncation error (the `?` on
`scan_until` / `scan_until_slice`); on success continue with the new
scratch, the returned offset, and the remaining input. -/
def orTrunc (o : Option (List Nat × Nat × List Nat))
    (k : List Nat → Nat → List Nat → ROutcome) : ROutcome :=
  match o with
  | none => .truncated
  | some (sc, i, rest) => k sc i rest

/-- Propagate a field-parse failure as an error returned to the caller
(the `?` on `from_utf8`/`parse`, or an `anyhow::bail!`). -/
def orFail {α : Type} (o : Option α) (msg : String) (k : α → ROutcome) : ROutcome :=
  match o with
  | none => .failed msg
  | some a => k a

/-- As `orFail`, for the pair returned by the method/path split. -/
def orFail2 (o : Option (List Nat × List Nat)) (msg : String)
    (k : List Nat → List Nat → ROutcome) : ROutcome :=
  match o with
  | none => .failed msg
  | some (a, b) => k a b

/-- Model of `str::from_utf8` on a field slice: the bytes themselves
when they decode, `none` (an `InvalidText` error) otherwise. -/
def utf8Check (bs : List Nat) : Option (List Nat) :=
  if validUtf8 bs then some bs else none

/-- The `.unwrap()` applied to `parse_log_date`'s result at line 59: a
returned timestamp continues the parse, while an error result — which
the spec says must be surfaced to the caller — panics instead; a panic
inside `parse_log_date` also propagates. -/
def orPanic (d : DateResult) (k : OffsetDateTime → ROutcome) : ROutcome :=
  match d with
  | .ok t => k t
  | .err _ => .panicked
  | .panicked => .panicked

/-- Embedding of the record body of `read_one` (lines 54-94), entered
with the first non-terminator byte already pushed into scratch.  The
scans, slices, and field parses follow the source line by line; the
`.unwrap()` on `parse_log_date` (line 59) turns any timestamp parse
error into a panic. -/
def parseRecord (first : Nat) (input : List Nat) : ROutcome :=
  orTrunc (scanUntilSlice 32 [45, 32] [first] input) fun sc1 requestorEnd in1 =>
  orFail (utf8Check (sliceRange sc1 0 requestorEnd)) "invalid utf-8" fun requestorStr =>
  orFail (parseIpAddr requestorStr) "invalid IP address" fun requestor =>
  orTrunc (scanUntil 91 sc1 in1) fun _sc2 _ in2 =>
  orTrunc (scanUntilSlice 93 [32, 34] [] in2) fun sc3 timeEnd in3 =>
  orPanic (parse_log_date (sliceRange sc3 0 timeEnd)) fun time =>
  orTrunc (scanUntilSlice 34 [32] [] in3) fun sc4 requestEnd in4 =>
  orTrunc (scanUntil 32 sc4 in4) fun sc5 responseCodeEnd in5 =>
  orFail (utf8Check (sliceRange sc5 sc4.length responseCodeEnd)) "invalid utf-8" fun codeStr =>
  orFail (parseUNat 65535 codeStr) "invalid digit" fun responseCode =>
  orTrunc (scanUntilSlice 32 [34] sc5 in5) fun sc6 bytesSentEnd in6 =>
  orFail (utf8Check (sliceRange sc6 sc5.length bytesSentEnd)) "invalid utf-8" fun sentStr =>
  orFail (parseUNat 4294967295 sentStr) "invalid digit" fun bytesSent =>
  orTrunc (scanUntilSlice 34 [32, 34] sc6 in6) fun sc7 referrerEnd in7 =>
  orTrunc (scanUntilSlice 34 [10] sc7 in7) fun sc8 uaEnd in8 =>
  orFail (utf8Check (sliceRange sc8 0 requestEnd)) "invalid utf-8" fun request =>
  orFail2 (splitRequest request responseCode) "invalid http request" fun method path =>
  orFail (utf8Check (sliceRange sc8 sc6.length referrerEnd)) "invalid utf-8" fun _referrerStr =>
  orFail (utf8Check (sliceRange sc8 sc7.length uaEnd)) "invalid utf-8" fun _uaStr =>
  .ok ⟨sc8, requestor, time, requestEnd, request, method, path,
       responseCode, bytesSent, sc6.length, referrerEnd, sc7.length, uaEnd⟩ in8

/-- Embedding of the blank-line loop of `read_one` (lines 41-52): clear
scratch, read one byte; a line feed skips the empty line and retries,
end-of-stream here is the clean `Ok(None)`, any other byte starts a
record. -/
def readRawOne (input : List Nat) : ROutcome :=
  match input with
  | [] => .eof
  | b :: rest => if b = 10 then readRawOne rest else parseRecord b rest

/-- Embedding of the `LogEntry` struct (lines 12-22); borrowed `&str`
fields are the corresponding byte slices. -/
structure LogEntry where
  requestor : IpAddr
  time : OffsetDateTime
  method : List Nat
  path : List Nat
  responseCode : Nat
  bytesSent : Nat
  referrer : List Nat
  userAgent : List Nat
deriving DecidableEq, Repr

/-- Outcome of one `read_one` call as seen by the caller. -/
inductive Outcome
  | ok (entry : LogEntry) (rest : List Nat)
  | eof
  | truncated
  | failed (msg : String)
  | panicked
deriving DecidableEq, Repr

/-- The `LogEntry` view assembled at lines 85-94: referrer and
user-agent are sliced from the final scratch buffer at their recorded
offsets. -/
def RawRecord.toEntry (r : RawRecord) : LogEntry :=
  ⟨r.requestor, r.time, r.method, r.path, r.responseCode, r.bytesSent,
   sliceRange r.scratch r.referrerStart r.referrerEnd,
   sliceRange r.scratch r.uaStart r.uaEnd⟩

/-- Project a raw outcome onto the caller's view. -/
def render : ROutcome → Outcome
  | .ok raw rest => .ok raw.toEntry rest
  | .eof => .eof
  | .truncated => .truncated
  | .failed m => .failed m
  | .panicked => .panicked

/-- Embedding of `LogReader::read_one` (lines 40-96) on the remaining
input of the source. -/
def read_one (input : List Nat) : Outcome := render (readRawOne input)

/-- The literal sample line of the spec's round-trip scenario (and of
the source's `parsing` test), newline-terminated. -/
def sampleLine : List Nat :=
  strBytes "172.56.208.121 - - [08/May/2023:15:08:30 +0000] \"GET /episode-001.m4a HTTP/1.1\" 206 212698 \"https://wayofthecrab.com/\" \"Mozilla/5.0 ...\"\n"

/-- The record the spec requires for `sampleLine`. -/
def sampleEntry : LogEntry :=
  ⟨.v4 172 56 208 121, ⟨2023, 5, 8, 15, 8, 30, 0, 0⟩,
   strBytes "GET", strBytes "/episode-001.m4a", 206, 212698,
   strBytes "https://wayofthecrab.com/", strBytes "Mozilla/5.0 ..."⟩

/-- A small well-formed record line used for witnesses. -/
def shortLine : List Nat :=
  strBytes "1.2.3.4 - - [08/May/2023:15:08:30 +0000] \"GET / HTTP/1.1\" 200 5 \"r\" \"u\"\n"

/-- The record parsed from `shortLine`. -/
def shortEntry : LogEntry :=
  ⟨.v4 1 2 3 4, ⟨2023, 5, 8, 15, 8, 30, 0, 0⟩,
   strBytes "GET", strBytes "/", 200, 5, strBytes "r", strBytes "u"⟩

/-- The raw record (scratch buffer and slice offsets) for `shortLine`. -/
def shortRaw : RawRecord :=
  ⟨strBytes "GET / HTTP/1.1\" 200 5 \"r\" \"u\"\n", .v4 1 2 3 4,
   ⟨2023, 5, 8, 15, 8, 30, 0, 0⟩, 14, strBytes "GET / HTTP/1.1",
   strBytes "GET", strBytes "/", 200, 5, 23, 24, 27, 28⟩

/-- `shortLine` terminated by CRLF instead of a bare LF. -/
def crlfLine : List Nat :=
  strBytes "1.2.3.4 - - [08/May/2023:15:08:30 +0000] \"GET / HTTP/1.1\" 200 5 \"r\" \"u\"\r\n"

/-- A line whose request field is non-empty but starts with two spaces,
with status 200. -/
def doubleSpaceLine : List Nat :=
  strBytes "1.2.3.4 - - [08/May/2023:15:08:30 +0000] \"  x\" 200 5 \"r\" \"u\"\n"

/-- The raw record for `doubleSpaceLine`: a successful parse whose
method and path are both empty although the request line is non-empty
and the status is not 400. -/
def doubleSpaceRaw : RawRecord :=
  ⟨strBytes "  x\" 200 5 \"r\" \"u\"\n", .v4 1 2 3 4,
   ⟨2023, 5, 8, 15, 8, 30, 0, 0⟩, 3, strBytes "  x",
   [], [], 200, 5, 12, 13, 16, 17⟩

/-- A line whose request field is empty, with status 404. -/
def emptyReqLine : List Nat :=
  strBytes "1.2.3.4 - - [08/May/2023:15:08:30 +0000] \"\" 404 5 \"r\" \"u\"\n"

/-- The raw record for `emptyReqLine`. -/
def emptyReqRaw : RawRecord :=
  ⟨strBytes "\" 404 5 \"r\" \"u\"\n", .v4 1 2 3 4,
   ⟨2023, 5, 8, 15, 8, 30, 0, 0⟩, 0, [],
   [], [], 404, 5, 9, 10, 13, 14⟩

/-- A line with a two-token request line (method and path but no HTTP
version token), status 200. -/
def twoTokenLine : List Nat :=
  strBytes "1.2.3.4 - - [08/May/2023:15:08:30 +0000] \"GET /x\" 200 5 \"r\" \"u\"\n"

/-- A line whose timestamp day field is not numeric. -/
def badDayLine : List Nat :=
  strBytes "172.56.208.121 - - [xx/May/2023:15:08:30 +0000] \"GET / HTTP/1.1\" 200 5 \"r\" \"u\"\n"

/-- The sample line cut off immediately after the timestamp. -/
def truncLine : List Nat :=
  strBytes "172.56.208.121 - - [08/May/2023:15:08:30 +0000]"

set_option maxRecDepth 100000

example : readRawOne shortLine = .ok shortRaw [] := by decide
example : readRawOne doubleSpaceLine = .ok doubleSpaceRaw [] := by decide
example : readRawOne emptyReqLine = .ok emptyReqRaw [] := by decide
example : read_one sampleLine = .ok sampleEntry [] := by decide

theorem scanUntil_some_spec {b : Nat} {sc input sc' : List Nat} {i : Nat} {rest : List Nat}
    (h : scanUntil b sc input = some (sc', i, rest)) :
    ∃ cs, cs ≠ [] ∧ sc' = sc ++ cs ∧ input = cs ++ rest ∧ i + 1 = sc'.length ∧
      sc'.drop i = [b] := by
  induction input generalizing sc with
  | nil => simp [scanUntil] at h
  | cons c tl ih =>
    rw [scanUntil] at h
    by_cases hc : c = b
    · rw [if_pos hc] at h
      simp only [Option.some.injEq, Prod.mk.injEq] at h
      obtain ⟨h1, h2, h3⟩ := h
      subst h1 h2 h3
      refine ⟨[c], by simp, rfl, rfl, by simp, ?_⟩
      have : (sc ++ [c]).drop sc.length = [c] := List.drop_left sc [c]
      rw [this, hc]
    · rw [if_neg hc] at h
      obtain ⟨cs, hne, h1, h2, h3, h4⟩ := ih h
      exact ⟨c :: cs, by simp, by simp [h1], by simp [h2], h3, h4⟩

theorem scanUntil_none_iff {b : Nat} (sc input : List Nat) :
    scanUntil b sc input = none ↔ b ∉ input := by
  induction input generalizing sc with
  | nil => simp [scanUntil]
  | cons c tl ih =>
    rw [scanUntil]
    by_cases hc : c = b
    · simp [hc]
    · simp only [if_neg hc, ih, List.mem_cons]
      constructor
      · intro hnt hor
        rcases hor with hor | hor
        · exact hc hor.symm
        · exact hnt hor
      · intro hall
        exact fun hm => hall (Or.inr hm)

theorem matchRest_matched_spec {pat sc input sc' rest : List Nat}
    (h : matchRest pat sc input = .matched sc' rest) :
    sc' = sc ++ pat ∧ input = pat ++ rest := by
  induction pat generalizing sc input with
  | nil =>
    rw [matchRest] at h
    simp only [MatchOutcome.matched.injEq] at h
    obtain ⟨h1, h2⟩ := h
    exact ⟨by simp [h1.symm], by simp [h2.symm]⟩
  | cons p ps ih =>
    cases input with
    | nil => rw [matchRest] at h; exact MatchOutcome.noConfusion h
    | cons c tl =>
      rw [matchRest] at h
      by_cases hpc : p = c
      · rw [if_pos hpc] at h
        obtain ⟨h1, h2⟩ := ih h
        subst hpc
        exact ⟨by simp [h1], by simp [h2]⟩
      · rw [if_neg hpc] at h
        exact MatchOutcome.noConfusion h

theorem matchRest_mismatched_spec {pat sc input sc' rest : List Nat}
    (h : matchRest pat sc input = .mismatched sc' rest) :
    ∃ cs, cs ≠ [] ∧ sc' = sc ++ cs ∧ input = cs ++ rest := by
  induction pat generalizing sc input with
  | nil => rw [matchRest] at h; exact MatchOutcome.noConfusion h
  | cons p ps ih =>
    cases input with
    | nil => rw [matchRest] at h; exact MatchOutcome.noConfusion h
    | cons c tl =>
      rw [matchRest] at h
      by_cases hpc : p = c
      · rw [if_pos hpc] at h
        obtain ⟨cs, hne, h1, h2⟩ := ih h
        exact ⟨c :: cs, by simp, by simp [h1], by simp [h2]⟩
      · rw [if_neg hpc] at h
        simp only [MatchOutcome.mismatched.injEq] at h
        obtain ⟨h1, h2⟩ := h
        exact ⟨[c], by simp, by simp [h1.symm], by simp [h2.symm]⟩

theorem scanUntilSliceF_some_spec {fuel s0 : Nat} {stail sc input sc' : List Nat} {r : Nat}
    {rest : List Nat}
    (h : scanUntilSliceF fuel s0 stail sc input = some (sc', r, rest)) :
    ∃ cs, stail.length + 1 ≤ cs.length ∧ sc' = sc ++ cs ∧ input = cs ++ rest ∧
      r + (stail.length + 1) = sc'.length ∧ sc'.drop r = s0 :: stail := by
  induction fuel generalizing sc input with
  | zero => simp [scanUntilSliceF] at h
  | succ fuel ih =>
    rw [scanUntilSliceF] at h
    cases hscan : scanUntil s0 sc input with
    | none => rw [hscan] at h; exact Option.noConfusion h
    | some v =>
      obtain ⟨sc1, i1, in1⟩ := v
      rw [hscan] at h
      simp only [] at h
      obtain ⟨cs1, hne1, hsc1, hin1, hi1, hdrop1⟩ := scanUntil_some_spec hscan
      cases hmr : matchRest stail sc1 in1 with
      | matched sc2 in2 =>
        rw [hmr] at h
        simp only [Option.some.injEq, Prod.mk.injEq] at h
        obtain ⟨h1, h2, h3⟩ := h
        subst h1 h3 h2
        obtain ⟨hsc2, hin2⟩ := matchRest_matched_spec hmr
        have hpos : 0 < cs1.length := List.length_pos.mpr hne1
        have hlen2 : sc2.length = sc1.length + stail.length := by rw [hsc2]; simp
        refine ⟨cs1 ++ stail, by simp; omega, by rw [hsc2, hsc1, List.append_assoc], ?_, ?_, ?_⟩
        · rw [hin1, hin2, List.append_assoc]
        · omega
        · have hr : sc2.length - (stail.length + 1) = i1 := by omega
          rw [hr, hsc2, List.drop_append_of_le_length (by omega), hdrop1]
          simp
      | ended => rw [hmr] at h; exact Option.noConfusion h
      | mismatched sc2 in2 =>
        rw [hmr] at h
        obtain ⟨cs2, hne2, hsc2, hin2⟩ := matchRest_mismatched_spec hmr
        obtain ⟨cs3, hlen3, hsc3, hin3, hr3, hdrop3⟩ := ih h
        refine ⟨cs1 ++ cs2 ++ cs3, by simp; omega, ?_, ?_, hr3, hdrop3⟩
        · rw [hsc3, hsc2, hsc1]; simp [List.append_assoc]
        · rw [hin1, hin2, hin3]; simp [List.append_assoc]

theorem scanUntilSlice_some_spec {s0 : Nat} {stail sc input sc' : List Nat} {r : Nat}
    {rest : List Nat}
    (h : scanUntilSlice s0 stail sc input = some (sc', r, rest)) :
    ∃ cs, stail.length + 1 ≤ cs.length ∧ sc' = sc ++ cs ∧ input = cs ++ rest ∧
      r + (stail.length + 1) = sc'.length ∧ sc'.drop r = s0 :: stail := by
  rw [scanUntilSlice] at h
  exact scanUntilSliceF_some_spec h

theorem splitOnce_some_spec {xs : List Nat} {c : Nat} {a b : List Nat}
    (h : splitOnce xs c = some (a, b)) : xs = a ++ c :: b ∧ c ∉ a := by
  induction xs generalizing a b with
  | nil => simp [splitOnce] at h
  | cons x tl ih =>
    rw [splitOnce] at h
    by_cases hx : x = c
    · rw [if_pos hx] at h
      simp only [Option.some.injEq, Prod.mk.injEq] at h
      obtain ⟨h1, h2⟩ := h
      subst h1 h2 hx
      exact ⟨by simp, by simp⟩
    · rw [if_neg hx] at h
      cases hrec : splitOnce tl c with
      | none => rw [hrec] at h; exact Option.noConfusion h
      | some p =>
        obtain ⟨a1, b1⟩ := p
        rw [hrec] at h
        simp only [Option.some.injEq, Prod.mk.injEq] at h
        obtain ⟨h1, h2⟩ := h
        obtain ⟨htl, hna⟩ := ih hrec
        subst h1 h2
        refine ⟨by simp [htl], ?_⟩
        intro hm
        rcases List.mem_cons.mp hm with hm | hm
        · exact hx hm.symm
        · exact hna hm

theorem splitOnce_isSome_iff {xs : List Nat} {c : Nat} :
    (splitOnce xs c).isSome = true ↔ c ∈ xs := by
  induction xs with
  | nil => simp [splitOnce]
  | cons x tl ih =>
    rw [splitOnce]
    by_cases hx : x = c
    · simp [hx]
    · rw [if_neg hx]
      cases hrec : splitOnce tl c with
      | none =>
        rw [hrec] at ih
        simp only [Option.isSome_none] at ih ⊢
        simp only [List.mem_cons]
        constructor
        · intro hf; exact absurd hf (by simp)
        · intro hor
          rcases hor with hor | hor
          · exact absurd hor.symm hx
          · exact absurd hor (fun hm => by simp [hm] at ih)
      | some p =>
        obtain ⟨a1, b1⟩ := p
        rw [hrec] at ih
        simp only [Option.isSome_some, true_iff] at ih
        simp [List.mem_cons, ih]

theorem orTrunc_eq_ok {o : Option (List Nat × Nat × List Nat)}
    {k : List Nat → Nat → List Nat → ROutcome} {raw : RawRecord} {rest : List Nat}
    (h : orTrunc o k = .ok raw rest) :
    ∃ sc i r, o = some (sc, i, r) ∧ k sc i r = .ok raw rest := by
  cases o with
  | none => simp [orTrunc] at h
  | some v =>
    obtain ⟨sc, i, r⟩ := v
    exact ⟨sc, i, r, rfl, h⟩

theorem orFail_eq_ok {α : Type} {o : Option α} {msg : String} {k : α → ROutcome}
    {raw : RawRecord} {rest : List Nat} (h : orFail o msg k = .ok raw rest) :
    ∃ a, o = some a ∧ k a = .ok raw rest := by
  cases o with
  | none => simp [orFail] at h
  | some a => exact ⟨a, rfl, h⟩

theorem orFail2_eq_ok {o : Option (List Nat × List Nat)} {msg : String}
    {k : List Nat → List Nat → ROutcome} {raw : RawRecord} {rest : List Nat}
    (h : orFail2 o msg k = .ok raw rest) :
    ∃ a b, o = some (a, b) ∧ k a b = .ok raw rest := by
  cases o with
  | none => simp [orFail2] at h
  | some v =>
    obtain ⟨a, b⟩ := v
    exact ⟨a, b, rfl, h⟩

theorem orPanic_eq_ok {d : DateResult} {k : OffsetDateTime → ROutcome}
    {raw : RawRecord} {rest : List Nat} (h : orPanic d k = .ok raw rest) :
    ∃ t, d = .ok t ∧ k t = .ok raw rest := by
  cases d with
  | ok t => exact ⟨t, rfl, h⟩
  | err m => simp [orPanic] at h
  | panicked => simp [orPanic] at h

theorem utf8Check_eq_some {bs s : List Nat} (h : utf8Check bs = some s) : s = bs := by
  rw [utf8Check] at h
  split at h
  · exact (Option.some.inj h).symm
  · exact Option.noConfusion h

theorem orTrunc_ne_eof {o : Option (List Nat × Nat × List Nat)}
    {k : List Nat → Nat → List Nat → ROutcome}
    (hk : ∀ sc i r, k sc i r ≠ .eof) : orTrunc o k ≠ .eof := by
  cases o with
  | none => simp [orTrunc]
  | some v => obtain ⟨sc, i, r⟩ := v; exact hk sc i r

theorem orFail_ne_eof {α : Type} {o : Option α} {msg : String} {k : α → ROutcome}
    (hk : ∀ a, k a ≠ .eof) : orFail o msg k ≠ .eof := by
  cases o with
  | none => simp [orFail]
  | some a => exact hk a

theorem orFail2_ne_eof {o : Option (List Nat × List Nat)} {msg : String}
    {k : List Nat → List Nat → ROutcome}
    (hk : ∀ a b, k a b ≠ .eof) : orFail2 o msg k ≠ .eof := by
  cases o with
  | none => simp [orFail2]
  | some v => obtain ⟨a, b⟩ := v; exact hk a b

theorem orPanic_ne_eof {d : DateResult} {k : OffsetDateTime → ROutcome}
    (hk : ∀ t, k t ≠ .eof) : orPanic d k ≠ .eof := by
  cases d with
  | ok t => exact hk t
  | err m => simp [orPanic]
  | panicked => simp [orPanic]

theorem parseRecord_ne_eof (first : Nat) (input : List Nat) :
    parseRecord first input ≠ .eof := by
  rw [parseRecord]
  apply orTrunc_ne_eof; intro sc1 requestorEnd in1
  apply orFail_ne_eof; intro requestorStr
  apply orFail_ne_eof; intro requestor
  apply orTrunc_ne_eof; intro sc2 i2 in2
  apply orTrunc_ne_eof; intro sc3 timeEnd in3
  apply orPanic_ne_eof; intro time
  apply orTrunc_ne_eof; intro sc4 requestEnd in4
  apply orTrunc_ne_eof; intro sc5 responseCodeEnd in5
  apply orFail_ne_eof; intro codeStr
  apply orFail_ne_eof; intro responseCode
  apply orTrunc_ne_eof; intro sc6 bytesSentEnd in6
  apply orFail_ne_eof; intro sentStr
  apply orFail_ne_eof; intro bytesSent
  apply orTrunc_ne_eof; intro sc7 referrerEnd in7
  apply orTrunc_ne_eof; intro sc8 uaEnd in8
  apply orFail_ne_eof; intro request
  apply orFail2_ne_eof; intro method path
  apply orFail_ne_eof; intro rstr
  apply orFail_ne_eof; intro ustr
  simp

theorem readRawOne_eq_eof_iff (input : List Nat) :
    readRawOne input = .eof ↔ ∀ x ∈ input, x = 10 := by
  induction input with
  | nil => simp [readRawOne]
  | cons b tl ih =>
    rw [readRawOne]
    by_cases hb : b = 10
    · rw [if_pos hb]
      subst hb
      simp [ih]
    · rw [if_neg hb]
      simp only [List.mem_cons]
      constructor
      · intro hcontra
        exact absurd hcontra (parseRecord_ne_eof b tl)
      · intro hall
        exact absurd (hall b (Or.inl rfl)) hb

theorem readRawOne_skip (input : List Nat) :
    readRawOne (10 :: input) = readRawOne input := by
  rw [readRawOne]
  simp

theorem readRawOne_eq_ok_inv {input : List Nat} {raw : RawRecord} {rest : List Nat}
    (h : readRawOne input = .ok raw rest) :
    ∃ b tl, b ≠ 10 ∧ parseRecord b tl = .ok raw rest := by
  induction input with
  | nil => simp [readRawOne] at h
  | cons b tl ih =>
    rw [readRawOne] at h
    by_cases hb : b = 10
    · rw [if_pos hb] at h
      exact ih h
    · rw [if_neg hb] at h
      exact ⟨b, tl, hb, h⟩

theorem render_eq_eof_iff {o : ROutcome} : render o = .eof ↔ o = .eof := by
  cases o <;> simp [render]

theorem parseRecord_eq_ok_facts {first : Nat} {input : List Nat} {raw : RawRecord}
    {rest : List Nat} (h : parseRecord first input = .ok raw rest) :
    splitRequest raw.request raw.responseCode = some (raw.method, raw.path) ∧
    raw.request = sliceRange raw.scratch 0 raw.requestEnd ∧
    raw.requestEnd + 2 ≤ raw.referrerStart ∧
    raw.referrerStart ≤ raw.referrerEnd ∧
    raw.referrerEnd + 3 = raw.uaStart ∧
    raw.uaStart ≤ raw.uaEnd ∧
    raw.uaEnd + 2 = raw.scratch.length := by
  rw [parseRecord] at h
  obtain ⟨sc1, requestorEnd, in1, hs1, h⟩ := orTrunc_eq_ok h
  obtain ⟨requestorStr, hu1, h⟩ := orFail_eq_ok h
  obtain ⟨requestor, hip, h⟩ := orFail_eq_ok h
  obtain ⟨sc2, i2, in2, hs2, h⟩ := orTrunc_eq_ok h
  obtain ⟨sc3, timeEnd, in3, hs3, h⟩ := orTrunc_eq_ok h
  obtain ⟨time, hdate, h⟩ := orPanic_eq_ok h
  obtain ⟨sc4, requestEnd, in4, hs4, h⟩ := orTrunc_eq_ok h
  obtain ⟨sc5, responseCodeEnd, in5, hs5, h⟩ := orTrunc_eq_ok h
  obtain ⟨codeStr, hu2, h⟩ := orFail_eq_ok h
  obtain ⟨responseCode, hcode, h⟩ := orFail_eq_ok h
  obtain ⟨sc6, bytesSentEnd, in6, hs6, h⟩ := orTrunc_eq_ok h
  obtain ⟨sentStr, hu3, h⟩ := orFail_eq_ok h
  obtain ⟨bytesSent, hsent, h⟩ := orFail_eq_ok h
  obtain ⟨sc7, referrerEnd, in7, hs7, h⟩ := orTrunc_eq_ok h
  obtain ⟨sc8, uaEnd, in8, hs8, h⟩ := orTrunc_eq_ok h
  obtain ⟨request, hu4, h⟩ := orFail_eq_ok h
  obtain ⟨method, path, hsplit, h⟩ := orFail2_eq_ok h
  obtain ⟨rstr, hu5, h⟩ := orFail_eq_ok h
  obtain ⟨ustr, hu6, h⟩ := orFail_eq_ok h
  simp only [ROutcome.ok.injEq] at h
  obtain ⟨hraw, hrest⟩ := h
  subst hraw
  obtain ⟨cs4, hl4, hsc4, hin4, hr4, hd4⟩ := scanUntilSlice_some_spec hs4
  obtain ⟨cs5, hne5, hsc5, hin5, hi5, hd5⟩ := scanUntil_some_spec hs5
  obtain ⟨cs6, hl6, hsc6, hin6, hr6, hd6⟩ := scanUntilSlice_some_spec hs6
  obtain ⟨cs7, hl7, hsc7, hin7, hr7, hd7⟩ := scanUntilSlice_some_spec hs7
  obtain ⟨cs8, hl8, hsc8, hin8, hr8, hd8⟩ := scanUntilSlice_some_spec hs8
  have hlen5 : sc5.length = sc4.length + cs5.length := by rw [hsc5]; simp
  have hlen6 : sc6.length = sc5.length + cs6.length := by rw [hsc6]; simp
  have hlen7 : sc7.length = sc6.length + cs7.length := by rw [hsc7]; simp
  have hlen8 : sc8.length = sc7.length + cs8.length := by rw [hsc8]; simp
  simp only [List.length_cons, List.length_nil, List.length_singleton] at hl4 hl6 hl7 hl8 hr4 hr6 hr7 hr8
  dsimp only
  refine ⟨hsplit, utf8Check_eq_some hu4, ?_, ?_, ?_, ?_, ?_⟩
  · simp only [List.nil_append] at hsc4
    omega
  · omega
  · omega
  · omega
  · omega

theorem splitRequest_sentinel {request : List Nat} {code : Nat}
    (h : request = [] ∨ code = 400) : splitRequest request code = some ([], []) := by
  rw [splitRequest]
  rcases h with h | h <;> simp [h]

theorem splitRequest_some_split {request : List Nat} {code : Nat} {m p : List Nat}
    (h1 : request ≠ []) (h2 : code ≠ 400)
    (h : splitRequest request code = some (m, p)) :
    ∃ r1 t, request = m ++ 32 :: r1 ∧ r1 = p ++ 32 :: t ∧ 32 ∉ m ∧ 32 ∉ p := by
  rw [splitRequest] at h
  rw [if_neg (by simp [h1, h2])] at h
  cases hso : splitOnce request 32 with
  | none => rw [hso] at h; exact Option.noConfusion h
  | some pr =>
    obtain ⟨m1, r1⟩ := pr
    rw [hso] at h
    simp only [] at h
    cases hso2 : splitOnce r1 32 with
    | none => rw [hso2] at h; exact Option.noConfusion h
    | some pr2 =>
      obtain ⟨p1, t1⟩ := pr2
      rw [hso2] at h
      simp only [Option.some.injEq, Prod.mk.injEq] at h
      obtain ⟨hm, hp⟩ := h
      subst hm hp
      obtain ⟨hreq, hnm⟩ := splitOnce_some_spec hso
      obtain ⟨hr1, hnp⟩ := splitOnce_some_spec hso2
      exact ⟨r1, t1, hreq, hr1, hnm, hnp⟩

theorem splitRequest_isSome_iff {request : List Nat} {code : Nat}
    (h1 : request ≠ []) (h2 : code ≠ 400) :
    (splitRequest request code).isSome = true ↔ 2 ≤ request.count 32 := by
  rw [splitRequest]
  rw [if_neg (by simp [h1, h2])]
  cases hso : splitOnce request 32 with
  | none =>
    have hnm : 32 ∉ request := by
      rw [← splitOnce_isSome_iff]
      simp [hso]
    simp [List.count_eq_zero.mpr hnm]
  | some pr =>
    obtain ⟨m1, r1⟩ := pr
    obtain ⟨hreq, hnm⟩ := splitOnce_some_spec hso
    have hcnt : request.count 32 = r1.count 32 + 1 := by
      rw [hreq]
      simp [List.count_eq_zero.mpr hnm]
    cases hso2 : splitOnce r1 32 with
    | none =>
      have hnr : 32 ∉ r1 := by
        rw [← splitOnce_isSome_iff]
        simp [hso2]
      simp only []
      rw [hso2]
      simp [hcnt, List.count_eq_zero.mpr hnr]
    | some pr2 =>
      obtain ⟨p1, t1⟩ := pr2
      have hmem : 32 ∈ r1 := by
        rw [← splitOnce_isSome_iff]
        simp [hso2]
      have hpos : 0 < r1.count 32 := List.count_pos_iff.mpr hmem
      have h2c : (2 : Nat) ≤ request.count 32 := by omega
      simp only []
      rw [hso2]
      simp [h2c]

theorem sliceRange_zero (l : List Nat) (b : Nat) : sliceRange l 0 b = l.take b := by
  simp [sliceRange]

theorem scanUntil_shape {b : Nat} {sc input sc1 : List Nat} {i : Nat} {out : List Nat}
    (h : scanUntil b sc input = some (sc1, i, out)) :
    ∃ cs, b ∉ cs ∧ input = cs ++ b :: out ∧ sc1 = sc ++ cs ++ [b] ∧
      i = (sc ++ cs).length := by
  induction input generalizing sc with
  | nil => simp [scanUntil] at h
  | cons c tl ih =>
    rw [scanUntil] at h
    by_cases hc : c = b
    · rw [if_pos hc] at h
      simp only [Option.some.injEq, Prod.mk.injEq] at h
      obtain ⟨h1, h2, h3⟩ := h
      subst hc h1 h2 h3
      exact ⟨[], by simp, by simp, by simp, by simp⟩
    · rw [if_neg hc] at h
      obtain ⟨cs, hmem, hin, hsc, hi⟩ := ih h
      refine ⟨c :: cs, ?_, by simp [hin], by simp [hsc], by simp [hi]⟩
      intro hm
      rcases List.mem_cons.mp hm with hm | hm
      · exact hc hm.symm
      · exact hmem hm

theorem scanUntil_of_shape {b : Nat} {cs : List Nat} (hmem : b ∉ cs) (sc out : List Nat) :
    scanUntil b sc (cs ++ b :: out) = some (sc ++ cs ++ [b], (sc ++ cs).length, out) := by
  induction cs generalizing sc with
  | nil =>
    rw [List.nil_append, scanUntil, if_pos rfl]
    simp
  | cons c cs ih =>
    have hcb : ¬(c = b) := fun hcb => hmem (by simp [hcb])
    have hm : b ∉ cs := fun hm => hmem (by simp [hm])
    rw [List.cons_append, scanUntil, if_neg hcb, ih hm]
    simp

theorem matchRest_complete (pat : List Nat) (sc out : List Nat) :
    matchRest pat sc (pat ++ out) = .matched (sc ++ pat) out := by
  induction pat generalizing sc with
  | nil => rw [matchRest]; simp
  | cons p ps ih =>
    rw [List.cons_append, matchRest, if_pos rfl, ih]
    simp

theorem matchRest_mismatched_shape {pat sc input sc2 out : List Nat}
    (h : matchRest pat sc input = .mismatched sc2 out) :
    ∃ q y qs x, pat = q ++ y :: qs ∧ x ≠ y ∧ input = q ++ x :: out ∧
      sc2 = sc ++ q ++ [x] := by
  induction pat generalizing sc input with
  | nil => rw [matchRest] at h; exact MatchOutcome.noConfusion h
  | cons p ps ih =>
    cases input with
    | nil => rw [matchRest] at h; exact MatchOutcome.noConfusion h
    | cons c tl =>
      rw [matchRest] at h
      by_cases hpc : p = c
      · rw [if_pos hpc] at h
        obtain ⟨q, y, qs, x, hpat, hxy, hin, hsc⟩ := ih h
        subst hpc
        refine ⟨p :: q, y, qs, x, by simp [hpat], hxy, by simp [hin], by simp [hsc]⟩
      · rw [if_neg hpc] at h
        simp only [MatchOutcome.mismatched.injEq] at h
        obtain ⟨h1, h2⟩ := h
        exact ⟨[], p, ps, c, by simp, fun hcp => hpc hcp.symm, by simp [h2.symm],
          by simp [h1.symm]⟩

theorem matchRest_mismatch_replay {y x : Nat} (hxy : x ≠ y) (q qs sc out : List Nat) :
    matchRest (q ++ y :: qs) sc (q ++ x :: out) = .mismatched (sc ++ q ++ [x]) out := by
  induction q generalizing sc with
  | nil =>
    rw [List.nil_append, List.nil_append, matchRest, if_neg (fun hyx => hxy hyx.symm)]
    simp
  | cons a q ih =>
    rw [List.cons_append, List.cons_append, matchRest, if_pos rfl, ih]
    simp

theorem matchRest_agree_ended (q qs : List Nat) (hqs : qs ≠ []) :
    ∀ (sc : List Nat) (j : Nat), j ≤ q.length →
      matchRest (q ++ qs) sc (q.take j) = .ended := by
  induction q with
  | nil =>
    intro sc j hj
    obtain ⟨y, qs', rfl⟩ : ∃ y qs', qs = y :: qs' := by
      cases qs with
      | nil => exact absurd rfl hqs
      | cons y qs' => exact ⟨y, qs', rfl⟩
    simp only [List.nil_append, List.take_nil]
    rw [matchRest]
  | cons a q ih =>
    intro sc j hj
    cases j with
    | zero =>
      simp only [List.take_zero]
      rw [List.cons_append, matchRest]
    | succ j =>
      simp only [List.take_succ_cons]
      rw [List.cons_append, matchRest, if_pos rfl]
      exact ih (sc ++ [a]) j (by simpa using hj)

theorem scanUntil_take_none {b : Nat} {sc input sc1 : List Nat} {i : Nat} {out : List Nat}
    (h : scanUntil b sc input = some (sc1, i, out)) :
    ∀ j, j < input.length - out.length → scanUntil b sc (input.take j) = none := by
  obtain ⟨cs, hmem, hin, hsc, hi⟩ := scanUntil_shape h
  have hlen := congrArg List.length hin
  simp at hlen
  intro j hj
  have hjc : j ≤ cs.length := by omega
  rw [hin, List.take_append_of_le_length hjc, scanUntil_none_iff]
  intro hmemj
  exact hmem (List.Sublist.subset (List.take_sublist j cs) hmemj)

theorem scanUntil_take_some {b : Nat} {sc input sc1 : List Nat} {i : Nat} {out : List Nat}
    (h : scanUntil b sc input = some (sc1, i, out)) :
    ∀ j, input.length - out.length ≤ j →
      scanUntil b sc (input.take j) =
        some (sc1, i, out.take (j - (input.length - out.length))) := by
  obtain ⟨cs, hmem, hin, hsc, hi⟩ := scanUntil_shape h
  have hlen := congrArg List.length hin
  simp at hlen
  intro j hj
  have hc1 : input.length - out.length = cs.length + 1 := by omega
  have hsplitlist : (cs ++ b :: out).take j = cs ++ b :: out.take (j - (cs.length + 1)) := by
    rw [show cs ++ b :: out = (cs ++ [b]) ++ out by simp, List.take_append_eq_append_take,
      List.take_of_length_le (by simp; omega)]
    simp
  have hamt : j - (input.length - out.length) = j - (cs.length + 1) := by omega
  rw [hamt, hin, hsplitlist, scanUntil_of_shape hmem, hsc, hi]

theorem matchRest_take_lt_matched (pat sc out : List Nat) :
    ∀ j, j < pat.length → matchRest pat sc ((pat ++ out).take j) = .ended := by
  intro j hj
  rw [List.take_append_of_le_length (Nat.le_of_lt hj)]
  have hq : (pat.take j).take j = pat.take j := by
    rw [List.take_take]
    simp
  have hne : pat.drop j ≠ [] := by
    intro hnil
    rw [List.drop_eq_nil_iff] at hnil
    omega
  have hle : j ≤ (pat.take j).length := by
    rw [List.length_take]
    omega
  have hres := matchRest_agree_ended (pat.take j) (pat.drop j) hne sc j hle
  rw [List.take_append_drop] at hres
  rw [hq] at hres
  exact hres

theorem matchRest_take_ge_matched (pat sc out : List Nat) :
    ∀ j, pat.length ≤ j →
      matchRest pat sc ((pat ++ out).take j) =
        .matched (sc ++ pat) (out.take (j - pat.length)) := by
  intro j hj
  rw [List.take_append_eq_append_take, List.take_of_length_le hj]
  exact matchRest_complete pat sc _

theorem matchRest_take_lt_mm (y x : Nat) (q qs sc out : List Nat) :
    ∀ j, j ≤ q.length →
      matchRest (q ++ y :: qs) sc ((q ++ x :: out).take j) = .ended := by
  intro j hj
  rw [List.take_append_of_le_length hj]
  have hq : (q.take j).take j = q.take j := by
    rw [List.take_take]
    simp
  have hle : j ≤ (q.take j).length := by
    rw [List.length_take]
    omega
  have hres := matchRest_agree_ended (q.take j) (q.drop j ++ y :: qs) (by simp) sc j hle
  rw [← List.append_assoc, List.take_append_drop] at hres
  rw [hq] at hres
  exact hres

theorem matchRest_take_ge_mm {y x : Nat} (hxy : x ≠ y) (q qs sc out : List Nat) :
    ∀ j, q.length + 1 ≤ j →
      matchRest (q ++ y :: qs) sc ((q ++ x :: out).take j) =
        .mismatched (sc ++ q ++ [x]) (out.take (j - (q.length + 1))) := by
  intro j hj
  have hsplitlist : (q ++ x :: out).take j = q ++ x :: out.take (j - (q.length + 1)) := by
    rw [show q ++ x :: out = (q ++ [x]) ++ out by simp, List.take_append_eq_append_take,
      List.take_of_length_le (by simp; omega)]
    simp
  rw [hsplitlist]
  exact matchRest_mismatch_replay hxy q qs sc _

theorem scanUntilSliceF_take {fuel : Nat} {s0 : Nat} {stail sc input sc' : List Nat}
    {r : Nat} {out : List Nat}
    (h : scanUntilSliceF fuel s0 stail sc input = some (sc', r, out)) :
    (∀ j, j < input.length - out.length → ∀ fuel2,
      scanUntilSliceF fuel2 s0 stail sc (input.take j) = none) ∧
    (∀ j, input.length - out.length ≤ j → ∀ fuel2, input.length - out.length < fuel2 →
      scanUntilSliceF fuel2 s0 stail sc (input.take j) =
        some (sc', r, out.take (j - (input.length - out.length)))) := by
  induction fuel generalizing sc input with
  | zero => simp [scanUntilSliceF] at h
  | succ fuel ih =>
    rw [scanUntilSliceF] at h
    cases hscan : scanUntil s0 sc input with
    | none => rw [hscan] at h; exact Option.noConfusion h
    | some v =>
      obtain ⟨sc1, i1, in1⟩ := v
      rw [hscan] at h
      simp only [] at h
      obtain ⟨cs1, hmem1, hin1, hsc1, hi1⟩ := scanUntil_shape hscan
      have hlen1 := congrArg List.length hin1
      simp at hlen1
      cases hmr : matchRest stail sc1 in1 with
      | matched sc2 in2 =>
        rw [hmr] at h
        simp only [Option.some.injEq, Prod.mk.injEq] at h
        obtain ⟨h1, h2, h3⟩ := h
        subst h1 h2 h3
        obtain ⟨hsc2, hin2⟩ := matchRest_matched_spec hmr
        have hlen2 := congrArg List.length hin2
        simp at hlen2
        constructor
        · intro j hj fuel2
          cases fuel2 with
          | zero => rfl
          | succ fuel2 =>
            rw [scanUntilSliceF]
            rcases Nat.lt_or_ge j (cs1.length + 1) with hlt | hge
            · rw [scanUntil_take_none hscan j (by omega)]
            · rw [scanUntil_take_some hscan j (by omega)]
              simp only []
              have hamt : j - (input.length - in1.length) = j - (cs1.length + 1) := by
                omega
              rw [hamt, hin2,
                matchRest_take_lt_matched stail sc1 in2 (j - (cs1.length + 1)) (by omega)]
        · intro j hj fuel2 hf2
          cases fuel2 with
          | zero => exact absurd hf2 (by omega)
          | succ fuel2 =>
            rw [scanUntilSliceF]
            rw [scanUntil_take_some hscan j (by omega)]
            simp only []
            have hamt : j - (input.length - in1.length) = j - (cs1.length + 1) := by omega
            rw [hamt, hin2,
              matchRest_take_ge_matched stail sc1 in2 (j - (cs1.length + 1)) (by omega)]
            simp only []
            have hamt2 : j - (cs1.length + 1) - stail.length =
                j - (input.length - in2.length) := by omega
            rw [hamt2, hsc2]
      | ended => rw [hmr] at h; exact Option.noConfusion h
      | mismatched sc2 in2 =>
        rw [hmr] at h
        obtain ⟨q, y, qs, x, hpat, hxy, hin2, hsc2⟩ := matchRest_mismatched_shape hmr
        have hlen2 := congrArg List.length hin2
        simp at hlen2
        obtain ⟨csr, hlr, hscr, hinr, hrr, hdr⟩ := scanUntilSliceF_some_spec h
        have hlenr := congrArg List.length hinr
        simp at hlenr
        constructor
        · intro j hj fuel2
          cases fuel2 with
          | zero => rfl
          | succ fuel2 =>
            rw [scanUntilSliceF]
            rcases Nat.lt_or_ge j (cs1.length + 1) with hlt | hge
            · rw [scanUntil_take_none hscan j (by omega)]
            · rw [scanUntil_take_some hscan j (by omega)]
              simp only []
              have hamt : j - (input.length - in1.length) = j - (cs1.length + 1) := by
                omega
              rw [hamt, hin2, hpat]
              rcases Nat.lt_or_ge (j - (cs1.length + 1)) (q.length + 1) with hlt2 | hge2
              · rw [matchRest_take_lt_mm y x q qs sc1 in2 (j - (cs1.length + 1)) (by omega)]
              · rw [matchRest_take_ge_mm hxy q qs sc1 in2 (j - (cs1.length + 1)) hge2]
                simp only []
                rw [← hpat, ← hsc2]
                exact (ih h).1 (j - (cs1.length + 1) - (q.length + 1)) (by omega) fuel2
        · intro j hj fuel2 hf2
          cases fuel2 with
          | zero => exact absurd hf2 (by omega)
          | succ fuel2 =>
            rw [scanUntilSliceF]
            rw [scanUntil_take_some hscan j (by omega)]
            simp only []
            have hamt : j - (input.length - in1.length) = j - (cs1.length + 1) := by omega
            rw [hamt, hin2, hpat,
              matchRest_take_ge_mm hxy q qs sc1 in2 (j - (cs1.length + 1)) (by omega)]
            simp only []
            rw [← hpat, ← hsc2]
            have hamt3 : j - (cs1.length + 1) - (q.length + 1) - (in2.length - out.length) =
                j - (input.length - out.length) := by omega
            rw [← hamt3]
            exact (ih h).2 (j - (cs1.length + 1) - (q.length + 1)) (by omega) fuel2 (by omega)

theorem scanUntilSlice_take_none {s0 : Nat} {stail sc input sc' : List Nat} {r : Nat}
    {out : List Nat} (h : scanUntilSlice s0 stail sc input = some (sc', r, out)) :
    ∀ j, j < input.length - out.length →
      scanUntilSlice s0 stail sc (input.take j) = none := by
  intro j hj
  rw [scanUntilSlice] at h ⊢
  exact (scanUntilSliceF_take h).1 j hj _

theorem scanUntilSlice_take_some {s0 : Nat} {stail sc input sc' : List Nat} {r : Nat}
    {out : List Nat} (h : scanUntilSlice s0 stail sc input = some (sc', r, out)) :
    ∀ j, input.length - out.length ≤ j →
      scanUntilSlice s0 stail sc (input.take j) =
        some (sc', r, out.take (j - (input.length - out.length))) := by
  intro j hj
  rw [scanUntilSlice] at h ⊢
  obtain ⟨cs, hl, hsc, hin, hr, hd⟩ := scanUntilSliceF_some_spec h
  have hlen := congrArg List.length hin
  simp at hlen
  refine (scanUntilSliceF_take h).2 j hj _ ?_
  rw [List.length_take]
  omega

theorem parseRecord_take_trunc {first : Nat} {input : List Nat} {raw : RawRecord}
    {rest : List Nat} (h : parseRecord first input = .ok raw rest) :
    ∀ j, j < input.length - rest.length → parseRecord first (input.take j) = .truncated := by
  rw [parseRecord] at h
  obtain ⟨sc1, requestorEnd, in1, hs1, h⟩ := orTrunc_eq_ok h
  obtain ⟨requestorStr, hu1, h⟩ := orFail_eq_ok h
  obtain ⟨requestor, hip, h⟩ := orFail_eq_ok h
  obtain ⟨sc2, i2, in2, hs2, h⟩ := orTrunc_eq_ok h
  obtain ⟨sc3, timeEnd, in3, hs3, h⟩ := orTrunc_eq_ok h
  obtain ⟨time, hdate, h⟩ := orPanic_eq_ok h
  obtain ⟨sc4, requestEnd, in4, hs4, h⟩ := orTrunc_eq_ok h
  obtain ⟨sc5, responseCodeEnd, in5, hs5, h⟩ := orTrunc_eq_ok h
  obtain ⟨codeStr, hu2, h⟩ := orFail_eq_ok h
  obtain ⟨responseCode, hcode, h⟩ := orFail_eq_ok h
  obtain ⟨sc6, bytesSentEnd, in6, hs6, h⟩ := orTrunc_eq_ok h
  obtain ⟨sentStr, hu3, h⟩ := orFail_eq_ok h
  obtain ⟨bytesSent, hsent, h⟩ := orFail_eq_ok h
  obtain ⟨sc7, referrerEnd, in7, hs7, h⟩ := orTrunc_eq_ok h
  obtain ⟨sc8, uaEnd, in8, hs8, h⟩ := orTrunc_eq_ok h
  obtain ⟨request, hu4, h⟩ := orFail_eq_ok h
  obtain ⟨method, path, hsplit, h⟩ := orFail2_eq_ok h
  obtain ⟨rstr, hu5, h⟩ := orFail_eq_ok h
  obtain ⟨ustr, hu6, h⟩ := orFail_eq_ok h
  simp only [ROutcome.ok.injEq] at h
  obtain ⟨-, hrest⟩ := h
  subst hrest
  obtain ⟨csA, -, -, hinA, -, -⟩ := scanUntilSlice_some_spec hs1
  obtain ⟨csB, -, -, hinB, -, -⟩ := scanUntil_some_spec hs2
  obtain ⟨csC, -, -, hinC, -, -⟩ := scanUntilSlice_some_spec hs3
  obtain ⟨csD, -, -, hinD, -, -⟩ := scanUntilSlice_some_spec hs4
  obtain ⟨csE, -, -, hinE, -, -⟩ := scanUntil_some_spec hs5
  obtain ⟨csF, -, -, hinF, -, -⟩ := scanUntilSlice_some_spec hs6
  obtain ⟨csG, -, -, hinG, -, -⟩ := scanUntilSlice_some_spec hs7
  obtain ⟨csH, -, -, hinH, -, -⟩ := scanUntilSlice_some_spec hs8
  have hLA := congrArg List.length hinA
  have hLB := congrArg List.length hinB
  have hLC := congrArg List.length hinC
  have hLD := congrArg List.length hinD
  have hLE := congrArg List.length hinE
  have hLF := congrArg List.length hinF
  have hLG := congrArg List.length hinG
  have hLH := congrArg List.length hinH
  simp at hLA hLB hLC hLD hLE hLF hLG hLH
  intro j hj
  rw [parseRecord]
  rcases Nat.lt_or_ge j (input.length - in1.length) with hc1 | hc1
  · rw [scanUntilSlice_take_none hs1 j hc1]
    rfl
  rw [scanUntilSlice_take_some hs1 j hc1]
  simp only [orTrunc]
  rw [hu1]
  simp only [orFail]
  rw [hip]
  simp only [orFail]
  rcases Nat.lt_or_ge (j - (input.length - in1.length)) (in1.length - in2.length)
    with hc2 | hc2
  · rw [scanUntil_take_none hs2 _ hc2]
  rw [scanUntil_take_some hs2 _ hc2]
  simp only [orTrunc]
  rcases Nat.lt_or_ge (j - (input.length - in1.length) - (in1.length - in2.length))
    (in2.length - in3.length) with hc3 | hc3
  · rw [scanUntilSlice_take_none hs3 _ hc3]
  rw [scanUntilSlice_take_some hs3 _ hc3]
  simp only [orTrunc]
  rw [hdate]
  simp only [orPanic]
  rcases Nat.lt_or_ge
    (j - (input.length - in1.length) - (in1.length - in2.length) - (in2.length - in3.length))
    (in3.length - in4.length) with hc4 | hc4
  · rw [scanUntilSlice_take_none hs4 _ hc4]
  rw [scanUntilSlice_take_some hs4 _ hc4]
  simp only [orTrunc]
  rcases Nat.lt_or_ge
    (j - (input.length - in1.length) - (in1.length - in2.length) - (in2.length - in3.length) -
      (in3.length - in4.length))
    (in4.length - in5.length) with hc5 | hc5
  · rw [scanUntil_take_none hs5 _ hc5]
  rw [scanUntil_take_some hs5 _ hc5]
  simp only [orTrunc]
  rw [hu2]
  simp only [orFail]
  rw [hcode]
  simp only [orFail]
  rcases Nat.lt_or_ge
    (j - (input.length - in1.length) - (in1.length - in2.length) - (in2.length - in3.length) -
      (in3.length - in4.length) - (in4.length - in5.length))
    (in5.length - in6.length) with hc6 | hc6
  · rw [scanUntilSlice_take_none hs6 _ hc6]
  rw [scanUntilSlice_take_some hs6 _ hc6]
  simp only [orTrunc]
  rw [hu3]
  simp only [orFail]
  rw [hsent]
  simp only [orFail]
  rcases Nat.lt_or_ge
    (j - (input.length - in1.length) - (in1.length - in2.length) - (in2.length - in3.length) -
      (in3.length - in4.length) - (in4.length - in5.length) - (in5.length - in6.length))
    (in6.length - in7.length) with hc7 | hc7
  · rw [scanUntilSlice_take_none hs7 _ hc7]
  rw [scanUntilSlice_take_some hs7 _ hc7]
  simp only [orTrunc]
  rcases Nat.lt_or_ge
    (j - (input.length - in1.length) - (in1.length - in2.length) - (in2.length - in3.length) -
      (in3.length - in4.length) - (in4.length - in5.length) - (in5.length - in6.length) -
      (in6.length - in7.length))
    (in7.length - in8.length) with hc8 | hc8
  · rw [scanUntilSlice_take_none hs8 _ hc8]
  · exact absurd hc8 (by omega)

theorem readRawOne_eq_ok_struct {input : List Nat} {raw : RawRecord} {rest : List Nat}
    (h : readRawOne input = .ok raw rest) :
    ∃ n b tl, input = List.replicate n 10 ++ b :: tl ∧ b ≠ 10 ∧
      parseRecord b tl = .ok raw rest := by
  induction input with
  | nil => simp [readRawOne] at h
  | cons c tl ih =>
    rw [readRawOne] at h
    by_cases hc : c = 10
    · rw [if_pos hc] at h
      obtain ⟨n, b, tl', hin, hb, hp⟩ := ih h
      refine ⟨n + 1, b, tl', ?_, hb, hp⟩
      rw [hc, hin, List.replicate_succ]
      simp
    · rw [if_neg hc] at h
      exact ⟨0, c, tl, by simp, hc, h⟩

theorem readRawOne_replicate_append (n : Nat) (l : List Nat) :
    readRawOne (List.replicate n 10 ++ l) = readRawOne l := by
  induction n with
  | zero => simp
  | succ n ih => rw [List.replicate_succ, List.cons_append, readRawOne_skip, ih]

theorem readRawOne_take_trunc {input : List Nat} {raw : RawRecord} {rest : List Nat}
    (h : readRawOne input = .ok raw rest) :
    ∀ j, j < input.length - rest.length → ¬(∀ x ∈ List.take j input, x = 10) →
      read_one (List.take j input) = .truncated := by
  intro j hj hnall
  obtain ⟨n, b, tl, hin, hb, hp⟩ := readRawOne_eq_ok_struct h
  subst hin
  have hlen : (List.replicate n 10 ++ b :: tl).length = n + 1 + tl.length := by
    simp
    omega
  rcases Nat.lt_or_ge j (n + 1) with hjn | hjn
  · exfalso
    apply hnall
    intro x hx
    rw [List.take_append_of_le_length (by simp; omega)] at hx
    rw [List.take_replicate] at hx
    exact List.eq_of_mem_replicate hx
  · have hsplitlist : (List.replicate n 10 ++ b :: tl).take j
        = List.replicate n 10 ++ b :: tl.take (j - (n + 1)) := by
      rw [List.take_append_eq_append_take, List.take_of_length_le (by simp; omega),
        List.length_replicate]
      have hsucc : j - n = (j - (n + 1)) + 1 := by omega
      rw [hsucc, List.take_succ_cons]
    rw [read_one, hsplitlist, readRawOne_replicate_append, readRawOne, if_neg hb,
      parseRecord_take_trunc hp (j - (n + 1)) (by omega)]
    rfl

/-- Claim C1, counterexample: on the stream `"  - - x"` (bytes
32 32 45 32 45 32 120) the delimiter `" - "` = [32 45 32] first occurs at
offset 1, but `scan_until_slice` returns offset 3: after matching the
space at offset 0 and mismatching at offset 1, the naive restart resumes
scanning after the abandoned bytes and skips the occurrence that begins
inside the abandoned partial match. -/
theorem claim1_counterexample :
    scanUntilSlice 32 [45, 32] [] [32, 32, 45, 32, 45, 32, 120] =
      some ([32, 32, 45, 32, 45, 32], 3, [120]) ∧
    List.take 3 (List.drop 1 [32, 32, 45, 32, 45, 32, 120]) = [32, 45, 32] ∧
    (3 : Nat) ≠ 1 := by
  refine ⟨by decide, by decide, by decide⟩

/-- Claim C1 (amended): whenever `scan_until_slice` succeeds it returns
the offset of a genuine occurrence of the full delimiter — the delimiter
`s0 :: stail` forms the final bytes consumed into scratch, and the
returned offset points at its start — so the scan never ends a field at
a bare proper prefix of the delimiter.  However the offset is not always
that of the first occurrence in the bytes read: a mismatch abandons the
consumed bytes, and an occurrence beginning at or inside the abandoned
partial match can be skipped (see the counterexample). -/
theorem claim1_amended {s0 : Nat} {stail sc input sc' : List Nat} {r : Nat} {rest : List Nat}
    (h : scanUntilSlice s0 stail sc input = some (sc', r, rest)) :
    (∃ cs, sc' = sc ++ cs ∧ stail.length + 1 ≤ cs.length) ∧
    r + (stail.length + 1) = sc'.length ∧ sc'.drop r = s0 :: stail := by
  obtain ⟨cs, hl, hsc, hin, hr, hd⟩ := scanUntilSlice_some_spec h
  exact ⟨⟨cs, hsc, hl⟩, hr, hd⟩

theorem claim1_witness :
    (∃ cs, strBytes "a - " = ([] : List Nat) ++ cs ∧ [45, 32].length + 1 ≤ cs.length) ∧
    1 + ([45, 32].length + 1) = (strBytes "a - ").length ∧
    (strBytes "a - ").drop 1 = 32 :: [45, 32] :=
  claim1_amended (by decide :
    scanUntilSlice 32 [45, 32] [] (strBytes "a - b") = some (strBytes "a - ", 1, strBytes "b"))

/-- Claim C2 (code bug): on a line whose timestamp day field is not
numeric, `parse_log_date` itself returns an error identifying the day
component, but `read_one` applies `.unwrap()` to that result (line 59)
and panics instead of returning the InvalidTimestamp error to the
caller. -/
theorem claim2_code_bug :
    parse_log_date (strBytes "xx/May/2023:15:08:30 +0000") = .err "day" ∧
    read_one badDayLine = .panicked := by
  refine ⟨by decide, by decide⟩

/-- Claim C9 (code bug): `parse_log_date` is not total.  On the input
"08" the Day component parses successfully and consumes the whole input,
and the following separator check `time_bytes[0] != b'/'` indexes an
empty slice and panics instead of returning an error. -/
theorem claim9_code_bug :
    parseDayC (strBytes "08") = some (8, []) ∧
    parse_log_date (strBytes "08") = .panicked := by
  refine ⟨by decide, by decide⟩

/-- Claim C3, counterexample: a record whose request line has exactly
two whitespace-separated tokens ("GET /x", no HTTP version token) with
status 200 is rejected by `read_one` with the malformed-request error,
although the claim says it is accepted. -/
theorem claim3_counterexample :
    read_one twoTokenLine = .failed "invalid http request" := by decide

/-- Claim C3 (amended): for every record successfully returned with a
non-empty request line and status other than 400, the request line
contains at least two space bytes — method is the text before the first
space and path the text between the first and second spaces, the rest
being discarded.  A request line without a second space — in particular
a two-token method-and-path line — is rejected with the
malformed-request error rather than accepted. -/
theorem claim3_amended {input : List Nat} {raw : RawRecord} {rest : List Nat}
    (h : readRawOne input = .ok raw rest)
    (h1 : raw.request ≠ []) (h2 : raw.responseCode ≠ 400) :
    2 ≤ raw.request.count 32 ∧
    ∃ r1 t, raw.request = raw.method ++ 32 :: r1 ∧ r1 = raw.path ++ 32 :: t ∧
      32 ∉ raw.method ∧ 32 ∉ raw.path := by
  obtain ⟨b, tl, hb, hp⟩ := readRawOne_eq_ok_inv h
  obtain ⟨hsplit, -, -, -, -, -, -⟩ := parseRecord_eq_ok_facts hp
  refine ⟨?_, splitRequest_some_split h1 h2 hsplit⟩
  rw [← splitRequest_isSome_iff h1 h2, hsplit]
  rfl

theorem claim3_witness :
    2 ≤ shortRaw.request.count 32 ∧
    ∃ r1 t, shortRaw.request = shortRaw.method ++ 32 :: r1 ∧
      r1 = shortRaw.path ++ 32 :: t ∧ 32 ∉ shortRaw.method ∧ 32 ∉ shortRaw.path :=
  @claim3_amended shortLine shortRaw [] (by decide) (by decide) (by decide)

/-- Claim C4, counterexample: `doubleSpaceLine` has a non-empty request
line ("  x") and status 200, yet `read_one` succeeds and returns method
and path both empty, because the first two space-delimited segments of
the request line are empty. -/
theorem claim4_counterexample :
    readRawOne doubleSpaceLine = .ok doubleSpaceRaw [] ∧
    doubleSpaceRaw.request ≠ [] ∧ doubleSpaceRaw.responseCode ≠ 400 ∧
    doubleSpaceRaw.method = [] ∧ doubleSpaceRaw.path = [] := by
  refine ⟨by decide, by decide, by decide, rfl, rfl⟩

/-- Claim C4 (amended): for every record successfully returned by
`read_one`, if the request line is empty or the status is 400 then
method and path are both empty; the converse direction of the claim
fails, since both can also be empty on a successful parse whose
non-empty request line begins with two spaces (see the counterexample). -/
theorem claim4_amended {input : List Nat} {raw : RawRecord} {rest : List Nat}
    (h : readRawOne input = .ok raw rest)
    (hc : raw.request = [] ∨ raw.responseCode = 400) :
    raw.method = [] ∧ raw.path = [] := by
  obtain ⟨b, tl, hb, hp⟩ := readRawOne_eq_ok_inv h
  obtain ⟨hsplit, -, -, -, -, -, -⟩ := parseRecord_eq_ok_facts hp
  rw [splitRequest_sentinel hc] at hsplit
  simp only [Option.some.injEq, Prod.mk.injEq] at hsplit
  exact ⟨hsplit.1.symm, hsplit.2.symm⟩

theorem claim4_witness : emptyReqRaw.method = [] ∧ emptyReqRaw.path = [] :=
  @claim4_amended emptyReqLine emptyReqRaw [] (by decide) (Or.inl rfl)

/-- Claim C5: end-of-stream mid-record is reported as truncation,
distinct from the clean EndOfStream result.  A `read_one` call reports
clean EndOfStream exactly when the remaining source is exhausted at a
record boundary (contains only line terminators); and whenever an input
parses to a record, cutting that input anywhere strictly before the end
of the consumed bytes — once at least one non-terminator byte of the
record is included — makes `read_one` return the truncation outcome.
At the scanner level, `scan_until` fails exactly when the target byte
does not occur in the remaining source and `scan_until_slice` fails on
an exhausted source; the spec's concrete cut right after the timestamp
is also checked. -/
theorem claim5 :
    (∀ input, read_one input = .eof ↔ ∀ x ∈ input, x = 10) ∧
    (∀ input : List Nat, ∀ raw : RawRecord, ∀ rest : List Nat,
      readRawOne input = .ok raw rest →
      ∀ j, j < input.length - rest.length → ¬(∀ x ∈ List.take j input, x = 10) →
        read_one (List.take j input) = .truncated) ∧
    (∀ b : Nat, ∀ sc input : List Nat, scanUntil b sc input = none ↔ b ∉ input) ∧
    (∀ s0 : Nat, ∀ stail sc : List Nat, scanUntilSlice s0 stail sc [] = none) ∧
    read_one truncLine = .truncated ∧ (Outcome.truncated ≠ Outcome.eof) := by
  refine ⟨?_, ?_, ?_, ?_, by decide, by decide⟩
  · intro input
    rw [read_one, render_eq_eof_iff]
    exact readRawOne_eq_eof_iff input
  · intro input raw rest h
    exact readRawOne_take_trunc h
  · intro b sc input
    exact scanUntil_none_iff sc input
  · intro s0 stail sc
    rfl

theorem claim5_witness :
    read_one [10] = .eof ∧ scanUntil 34 [] [65] = none ∧
    read_one (List.take 30 shortLine) = .truncated :=
  ⟨(claim5.1 [10]).mpr (by decide), (claim5.2.2.1 34 [] [65]).mpr (by decide),
   claim5.2.1 shortLine shortRaw [] (by decide) 30 (by decide) (by decide)⟩

/-- Claim C6: a leading line-feed byte is skipped without producing a
record (the skip law holds for every input), every input consisting
solely of line terminators yields clean EndOfStream, and concretely two
valid records with blank lines interleaved parse to the two records and
nothing else. -/
theorem claim6 :
    (∀ input, read_one (10 :: input) = read_one input) ∧
    (∀ input, (∀ x ∈ input, x = 10) → read_one input = .eof) ∧
    read_one (10 :: shortLine ++ 10 :: shortLine) = .ok shortEntry (10 :: shortLine) ∧
    read_one (10 :: shortLine) = .ok shortEntry [] := by
  refine ⟨?_, ?_, by decide, by decide⟩
  · intro input
    rw [read_one, read_one, readRawOne_skip]
  · intro input hall
    rw [read_one, render_eq_eof_iff]
    exact (readRawOne_eq_eof_iff input).mpr hall

theorem claim6_witness :
    read_one [10, 10] = .eof ∧ read_one (10 :: shortLine) = read_one shortLine :=
  ⟨claim6.2.1 [10, 10] (by decide), claim6.1 shortLine⟩

/-- Claim C7: the literal spec sample line parses to exactly the record
required by the spec (requestor 172.56.208.121, timestamp
2023-05-08T15:08:30+00:00, method "GET", path "/episode-001.m4a",
status 206, bytes_sent 212698, referrer "https://wayofthecrab.com/",
user agent "Mozilla/5.0 ..."), and two such lines back-to-back yield
that record twice and then EndOfStream on the third call. -/
theorem claim7 :
    read_one (sampleLine ++ sampleLine) = .ok sampleEntry sampleLine ∧
    read_one sampleLine = .ok sampleEntry [] ∧
    read_one ([] : List Nat) = .eof := by
  refine ⟨by decide, by decide, by decide⟩

/-- Claim C10: only the line-feed byte 0x0A acts as a line terminator:
the blank-line skip fires exactly on a leading LF (any other first byte
starts a record), a record is complete only at the quote-LF sequence, a
lone LF input is clean EndOfStream while a lone CR input is a truncated
record, and the CRLF-terminated variant of a line that parses when
LF-terminated does not parse — the scan runs past the CR and truncates. -/
theorem claim10 :
    (∀ b : Nat, ∀ input, b ≠ 10 → readRawOne (b :: input) = parseRecord b input) ∧
    (∀ input, readRawOne (10 :: input) = readRawOne input) ∧
    read_one [10] = .eof ∧ read_one [13] = .truncated ∧
    read_one crlfLine = .truncated ∧
    read_one shortLine = .ok shortEntry [] ∧
    read_one (13 :: shortLine) = .failed "invalid IP address" := by
  refine ⟨?_, readRawOne_skip, by decide, by decide, by decide, by decide, by decide⟩
  intro b input hb
  rw [readRawOne, if_neg hb]

theorem claim10_witness :
    readRawOne (13 :: shortLine) = parseRecord 13 shortLine ∧
    readRawOne (10 :: shortLine) = readRawOne shortLine :=
  ⟨claim10.1 13 shortLine (by decide), claim10.2.1 shortLine⟩

/-- Claim C8: every record successfully returned by `read_one` has its
four textual fields (method, path, referrer, user agent) equal to
sub-ranges of the single scratch buffer accumulated for the current
record, with the four ranges in increasing order — hence pairwise
non-overlapping — and all contained in the buffer. -/
theorem claim8 {input : List Nat} {raw : RawRecord} {rest : List Nat}
    (h : readRawOne input = .ok raw rest) :
    ∃ mEnd pStart pEnd,
      read_one input = .ok ⟨raw.requestor, raw.time, sliceRange raw.scratch 0 mEnd,
        sliceRange raw.scratch pStart pEnd, raw.responseCode, raw.bytesSent,
        sliceRange raw.scratch raw.referrerStart raw.referrerEnd,
        sliceRange raw.scratch raw.uaStart raw.uaEnd⟩ rest ∧
      mEnd ≤ pStart ∧ pStart ≤ pEnd ∧ pEnd ≤ raw.referrerStart ∧
      raw.referrerStart ≤ raw.referrerEnd ∧ raw.referrerEnd ≤ raw.uaStart ∧
      raw.uaStart ≤ raw.uaEnd ∧ raw.uaEnd ≤ raw.scratch.length := by
  obtain ⟨b, tl, hb, hp⟩ := readRawOne_eq_ok_inv h
  obtain ⟨hsplit, hreqsl, hi1, hi2, hi3, hi4, hi5⟩ := parseRecord_eq_ok_facts hp
  have hread : read_one input = .ok raw.toEntry rest := by
    rw [read_one, h]
    rfl
  by_cases hc : raw.request = [] ∨ raw.responseCode = 400
  · have hmp : raw.method = [] ∧ raw.path = [] := by
      rw [splitRequest_sentinel hc] at hsplit
      simp only [Option.some.injEq, Prod.mk.injEq] at hsplit
      exact ⟨hsplit.1.symm, hsplit.2.symm⟩
    refine ⟨0, 0, 0, ?_, le_refl 0, le_refl 0, Nat.zero_le _, hi2, by omega, hi4, by omega⟩
    rw [hread]
    congr 1
    rw [RawRecord.toEntry]
    simp [sliceRange, hmp.1, hmp.2]
  · push_neg at hc
    obtain ⟨r1, t, hreq, hr1, hnm, hnp⟩ := splitRequest_some_split hc.1 hc.2 hsplit
    have hscr : raw.requestEnd ≤ raw.scratch.length := by omega
    have hreqtake : raw.request = raw.scratch.take raw.requestEnd := by
      rw [hreqsl, sliceRange_zero]
    have hreqlen : raw.request.length = raw.requestEnd := by
      rw [hreqtake, List.length_take]
      omega
    have hlen1 : raw.method.length + 1 + r1.length = raw.requestEnd := by
      have hcl := congrArg List.length hreq
      simp at hcl
      omega
    have hlen2 : raw.path.length + 1 + t.length = r1.length := by
      have hcl := congrArg List.length hr1
      simp at hcl
      omega
    have hmethod : raw.method = sliceRange raw.scratch 0 raw.method.length := by
      rw [sliceRange_zero]
      have h1 : raw.request.take raw.method.length = raw.method := by
        rw [hreq, List.take_left]
      conv_lhs => rw [← h1, hreqtake]
      rw [List.take_take, Nat.min_eq_left (by omega)]
    have hr1slice :
        r1 = (raw.scratch.drop (raw.method.length + 1)).take
          (raw.requestEnd - (raw.method.length + 1)) := by
      have h2 : raw.request.drop (raw.method.length + 1) = r1 := by
        have hlon : (raw.method ++ [32]).length = raw.method.length + 1 := by simp
        rw [hreq, show raw.method ++ 32 :: r1 = (raw.method ++ [32]) ++ r1 by simp, ← hlon,
          List.drop_left]
      rw [← h2, hreqtake, List.drop_take]
    have hpath :
        raw.path = sliceRange raw.scratch (raw.method.length + 1)
          (raw.method.length + 1 + raw.path.length) := by
      rw [sliceRange]
      have harith :
          raw.method.length + 1 + raw.path.length - (raw.method.length + 1) =
            raw.path.length := by omega
      rw [harith]
      have h3 : r1.take raw.path.length = raw.path := by
        rw [hr1, List.take_left]
      conv_lhs => rw [← h3, hr1slice]
      rw [List.take_take, Nat.min_eq_left (by omega)]
    refine ⟨raw.method.length, raw.method.length + 1,
      raw.method.length + 1 + raw.path.length, ?_, by omega, by omega, by omega, hi2,
      by omega, hi4, by omega⟩
    rw [hread]
    congr 1
    rw [RawRecord.toEntry, ← hmethod, ← hpath]

theorem claim8_witness :
    ∃ mEnd pStart pEnd,
      read_one shortLine = .ok ⟨shortRaw.requestor, shortRaw.time,
        sliceRange shortRaw.scratch 0 mEnd, sliceRange shortRaw.scratch pStart pEnd,
        shortRaw.responseCode, shortRaw.bytesSent,
        sliceRange shortRaw.scratch shortRaw.referrerStart shortRaw.referrerEnd,
        sliceRange shortRaw.scratch shortRaw.uaStart shortRaw.uaEnd⟩ [] ∧
      mEnd ≤ pStart ∧ pStart ≤ pEnd ∧ pEnd ≤ shortRaw.referrerStart ∧
      shortRaw.referrerStart ≤ shortRaw.referrerEnd ∧
      shortRaw.referrerEnd ≤ shortRaw.uaStart ∧
      shortRaw.uaStart ≤ shortRaw.uaEnd ∧ shortRaw.uaEnd ≤ shortRaw.scratch.length :=
  claim8 (by decide : readRawOne shortLine = .ok shortRaw [])
